import Mathlib

/-!
Shallow embedding of the Flappy Dragon game core (src/main.rs) and
verification of its specification.

Modelling conventions:
* Rust `i32` values are embedded as `Int`, `usize` as `Nat`.
* Rust `f32` values (`Player.y`, `Player.velocity`, `State.frame_time`,
  frame durations) are embedded as exact rationals `Rat`, the idealised
  (infinitely precise) reading of the source's arithmetic.  The properties
  proved on this model are insensitive to binary32 rounding — with one
  exception: the literal 0.1 is not representable in binary32 (`0.1f32` is
  13421773 / 2^27, slightly above 1/10), and that rounding error is
  load-bearing for the velocity-cap claim.  For that claim the velocity
  update is modelled under explicit IEEE binary32 round-to-nearest-even
  arithmetic (`f32round`, `Player.gravity_and_mode_f32`) instead.
* The Rust cast `y as i32` (f32 to i32) is truncation toward zero, embedded
  as `ratTruncToInt`; Rust `i32` division/remainder also truncate toward
  zero, embedded as `Int.tdiv` / `Int.tmod`.
* Randomness (`RandomNumberGenerator::range`) is passed in explicitly: every
  place the source draws a random number takes the drawn value as an
  argument.  `range (lo, hi)` draws satisfy `lo ≤ r < hi`.
* The rendering/input context (`BTerm`) is replaced by a `FrameInput`
  record holding exactly what one `play` frame reads from it: the elapsed
  frame time `ctx.frame_time_ms` and the key `ctx.key`, plus the two random
  draws the frame may consume.
-/

namespace FlappyDragon

/-- Rust `i32` division: truncation toward zero. -/
def i32div (a b : Int) : Int := Int.tdiv a b

/-- Rust `i32` remainder: truncation toward zero (sign of the dividend). -/
def i32mod (a b : Int) : Int := Int.tmod a b

/-- Rust `as i32` cast of an `f32` value, on the exact-rational model:
truncation toward zero. -/
def ratTruncToInt (q : Rat) : Int := Int.tdiv q.num (Int.ofNat q.den)

/-- `const SCREEN_WIDTH: i32 = 80;` -/
def SCREEN_WIDTH : Int := 80

/-- `const SCREEN_HEIGHT: i32 = 50;` -/
def SCREEN_HEIGHT : Int := 50

/-- `const FRAME_DURATION: f32 = 40.0;` -/
def FRAME_DURATION : Rat := 40

/-- `const DRAGON_FRAMES: [u16; 6] = [64, 1, 2, 3, 2, 1];` -/
def DRAGON_FRAMES : List Nat := [64, 1, 2, 3, 2, 1]

/-- `struct Player` of src/main.rs. -/
structure Player where
  x : Int
  y : Rat
  velocity : Rat
  frame : Nat
deriving DecidableEq

/-- `Player::new` of src/main.rs (the `y as f32` cast is the coercion). -/
def Player.new (x y : Int) : Player :=
  { x := x, y := (y : Rat), velocity := 0, frame := 0 }

/-- `Player::gravity_and_mode` of src/main.rs: capped gravity, position
update with clamp at 0, horizontal advance by 1, animation frame modulo 6. -/
def Player.gravity_and_mode (p : Player) : Player :=
  let v := if p.velocity < 2 then p.velocity + 1/10 else p.velocity
  let y0 := p.y + v
  let y1 := if y0 < 0 then 0 else y0
  { x := p.x + 1, y := y1, velocity := v, frame := (p.frame + 1) % 6 }

/-- `Player::flap` of src/main.rs: velocity overwritten with -1.0. -/
def Player.flap (p : Player) : Player := { p with velocity := -1 }

/-- `struct Obstacle` of src/main.rs. -/
structure Obstacle where
  x : Int
  gap_y : Int
  size : Int
deriving DecidableEq

/-- `Obstacle::new` of src/main.rs.  The source draws
`random.range(5, 45)` for `gap_y`; the draw is passed in as `gapRoll`
(valid draws satisfy `5 ≤ gapRoll < 45`).  `size` is `i32::max(10, 40)`. -/
def Obstacle.new (x gapRoll : Int) : Obstacle :=
  { x := x, gap_y := gapRoll, size := max 10 40 }

/-- `Obstacle::hit_obstacle` of src/main.rs. -/
def Obstacle.hit_obstacle (o : Obstacle) (p : Player) : Bool :=
  let half_size := i32div o.size 2
  let does_x_match : Bool := p.x == o.x
  let player_above_gap : Bool := decide (ratTruncToInt p.y < o.gap_y - half_size)
  let player_below_gap : Bool := decide (ratTruncToInt p.y > o.gap_y + half_size)
  does_x_match && (player_above_gap || player_below_gap)

/-- `enum GameMode` of src/main.rs. -/
inductive GameMode where
  | Menu
  | Playing
  | Pause
  | End
deriving DecidableEq

/-- The keys `State::play` distinguishes (`VirtualKeyCode`): Space, Escape,
and any other key. -/
inductive Key where
  | Space
  | Escape
  | Other
deriving DecidableEq

/-- Everything one invocation of `State::play` reads from the `BTerm`
context and from its random number generator:
`frame_time_ms = ctx.frame_time_ms`, `key = ctx.key`,
`spawnRoll = random.range(1, 40)` (valid draws: `1 ≤ r < 40`) and
`gapRoll = random.range(5, 45)` inside `Obstacle::new` should a spawn
occur (valid draws: `5 ≤ r < 45`). -/
structure FrameInput where
  frame_time_ms : Rat
  key : Option Key
  spawnRoll : Int
  gapRoll : Int
deriving DecidableEq

/-- `struct State` of src/main.rs. -/
structure State where
  player : Player
  frame_time : Rat
  obstacles : List Obstacle
  mode : GameMode
  score : Int
deriving DecidableEq

/-- `State::new` of src/main.rs (initial obstacle's gap draw passed in). -/
def State.new (gapRoll : Int) : State :=
  { player := Player.new 5 25
    frame_time := 0
    obstacles := [Obstacle.new SCREEN_WIDTH gapRoll]
    mode := GameMode.Menu
    score := 0 }

/-- `State::restart` of src/main.rs: fresh player, empty accumulator, one
fresh obstacle at `SCREEN_WIDTH`, mode Playing, score 0. -/
def State.restart (gapRoll : Int) : State :=
  { player := Player.new 5 25
    frame_time := 0
    obstacles := [Obstacle.new SCREEN_WIDTH gapRoll]
    mode := GameMode.Playing
    score := 0 }

/-- The accumulator value right after `self.frame_time += ctx.frame_time_ms`
at the top of `State::play`. -/
def State.tickTime (s : State) (inp : FrameInput) : Rat :=
  s.frame_time + inp.frame_time_ms

/-- Whether this frame's physics tick fires:
`if self.frame_time > FRAME_DURATION`. -/
def State.tickFires (s : State) (inp : FrameInput) : Bool :=
  decide (s.tickTime inp > FRAME_DURATION)

/-- The accumulator value for the rest of the frame (reset to 0 when the
tick fired). -/
def State.frameAccum (s : State) (inp : FrameInput) : Rat :=
  if s.tickFires inp then 0 else s.tickTime inp

/-- The player for the rest of the frame: optional physics tick followed by
the key handler (Space applies `flap`; Escape touches only the mode). -/
def State.framePlayer (s : State) (inp : FrameInput) : Player :=
  let p1 := if s.tickFires inp then s.player.gravity_and_mode else s.player
  if inp.key = some Key.Space then p1.flap else p1

/-- The spawn condition of `State::play`:
`self.frame_time as i32 % 50 == 0 && random.range(1, 40) % 10 == 0`. -/
def State.spawnFires (s : State) (inp : FrameInput) : Bool :=
  (i32mod (ratTruncToInt (s.frameAccum inp)) 50 == 0) &&
    (i32mod inp.spawnRoll 10 == 0)

/-- The obstacle list after the spawn step: when the spawn condition holds
a new obstacle is pushed at `self.player.x + SCREEN_WIDTH`. -/
def State.frameObstacles (s : State) (inp : FrameInput) : List Obstacle :=
  if s.spawnFires inp then
    s.obstacles ++ [Obstacle.new ((s.framePlayer inp).x + SCREEN_WIDTH) inp.gapRoll]
  else s.obstacles

/-- `State::play` of src/main.rs, with rendering calls dropped.  Faithful
control flow: accumulate frame time and run at most one physics tick; handle
the key (Space flaps, Escape sets mode Pause); maybe spawn one obstacle at
`player.x + SCREEN_WIDTH`; add 1 to the score for every obstacle whose `x`
the player's `x` exceeds, remembering whether any did (`pop_obstacle`); set
mode End if for some obstacle in the list `player.y as i32 > SCREEN_HEIGHT`
or `hit_obstacle` holds; finally, if `pop_obstacle`, remove the head of the
list. -/
def State.play (s : State) (inp : FrameInput) : State :=
  let p := s.framePlayer inp
  let obs := s.frameObstacles inp
  let passed := fun o : Obstacle => decide (p.x > o.x)
  let deathHit :=
    obs.any fun o => decide (ratTruncToInt p.y > SCREEN_HEIGHT) || o.hit_obstacle p
  { player := p
    frame_time := s.frameAccum inp
    obstacles := if obs.any passed then obs.drop 1 else obs
    mode :=
      if deathHit then GameMode.End
      else if inp.key = some Key.Escape then GameMode.Pause
      else s.mode
    score := s.score + (obs.countP passed : Int) }

/-- Iterated Playing-mode frames: `State::play` applied to each input of the
list in order. -/
def runFrames (s : State) (l : List FrameInput) : State :=
  l.foldl State.play s

/-- Player states reachable in the program: the player created by
`State::new` / `State::restart` (`Player::new(5, 25)`), closed under the
only two mutating operations, `gravity_and_mode` and `flap`.  Every player
value produced by `State::play` from a reachable one is reachable. -/
inductive PlayerReach : Player → Prop where
  | init : PlayerReach (Player.new 5 25)
  | tick {p : Player} : PlayerReach p → PlayerReach p.gravity_and_mode
  | flap {p : Player} : PlayerReach p → PlayerReach p.flap

/-- The player of a `play` frame is reachable when the frame's input player
is. -/
theorem playerReach_framePlayer (s : State) (inp : FrameInput)
    (h : PlayerReach s.player) : PlayerReach (s.framePlayer inp) := by
  unfold State.framePlayer
  dsimp only
  split
  · split
    · exact PlayerReach.flap (PlayerReach.tick h)
    · exact PlayerReach.flap h
  · split
    · exact PlayerReach.tick h
    · exact h

/-!
Concrete executions of the Playing-mode frame handler, used below to show
that certain states are reachable from a fresh (`restart`) session.

`iA` is a frame of 50 ms with the Space key held (tick fires, then flap),
valid spawn roll 1 (no spawn since 1 % 10 ≠ 0) — the standard "flap every
frame" input.  `iB` is the same frame with no key pressed.  The long runs
are evaluated in chunks of at most ten frames against explicitly listed
checkpoint states, glued with `runFrames_append`.
-/

def iA : FrameInput := ⟨50, some Key.Space, 1, 0⟩

def iB : FrameInput := ⟨50, none, 1, 0⟩

/-- The initial obstacle of `State::restart` with gap draw 20. -/
def ob80 : Obstacle := ⟨80, 20, 40⟩

/-- An obstacle spawned at player position 6 (x = 6 + SCREEN_WIDTH). -/
def ob86 : Obstacle := ⟨86, 20, 40⟩

theorem runFrames_append (s : State) (l1 l2 : List FrameInput) :
    runFrames s (l1 ++ l2) = runFrames (runFrames s l1) l2 :=
  List.foldl_append _ _ _ _

def ckA10 : State := ⟨⟨15, 17, -1, 4⟩, 0, [ob80], GameMode.Playing, 0⟩

def ckA20 : State := ⟨⟨25, 8, -1, 2⟩, 0, [ob80], GameMode.Playing, 0⟩

def ckA30 : State := ⟨⟨35, 0, -1, 0⟩, 0, [ob80], GameMode.Playing, 0⟩

def ckA40 : State := ⟨⟨45, 0, -1, 4⟩, 0, [ob80], GameMode.Playing, 0⟩

def ckA50 : State := ⟨⟨55, 0, -1, 2⟩, 0, [ob80], GameMode.Playing, 0⟩

def ckA60 : State := ⟨⟨65, 0, -1, 0⟩, 0, [ob80], GameMode.Playing, 0⟩

def ckA70 : State := ⟨⟨75, 0, -1, 4⟩, 0, [ob80], GameMode.Playing, 0⟩

/-- After 76 flap frames the player (x = 81) has just passed the initial
obstacle: score 1, obstacle list now empty. -/
def ckA76 : State := ⟨⟨81, 0, -1, 4⟩, 0, [], GameMode.Playing, 1⟩

set_option maxRecDepth 8000 in
theorem runA1 : runFrames (State.restart 20) (List.replicate 10 iA) = ckA10 := by
  with_unfolding_all decide

set_option maxRecDepth 8000 in
theorem runA2 : runFrames ckA10 (List.replicate 10 iA) = ckA20 := by
  with_unfolding_all decide

set_option maxRecDepth 8000 in
theorem runA3 : runFrames ckA20 (List.replicate 10 iA) = ckA30 := by
  with_unfolding_all decide

set_option maxRecDepth 8000 in
theorem runA4 : runFrames ckA30 (List.replicate 10 iA) = ckA40 := by
  with_unfolding_all decide

set_option maxRecDepth 8000 in
theorem runA5 : runFrames ckA40 (List.replicate 10 iA) = ckA50 := by
  with_unfolding_all decide

set_option maxRecDepth 8000 in
theorem runA6 : runFrames ckA50 (List.replicate 10 iA) = ckA60 := by
  with_unfolding_all decide

set_option maxRecDepth 8000 in
theorem runA7 : runFrames ckA60 (List.replicate 10 iA) = ckA70 := by
  with_unfolding_all decide

set_option maxRecDepth 8000 in
theorem runA8 : runFrames ckA70 (List.replicate 6 iA) = ckA76 := by
  with_unfolding_all decide

def ckB10 : State := ⟨⟨91, 0, 0, 2⟩, 0, [], GameMode.Playing, 1⟩

def ckB20 : State := ⟨⟨101, 11/2, 1, 0⟩, 0, [], GameMode.Playing, 1⟩

def ckB30 : State := ⟨⟨111, 21, 2, 4⟩, 0, [], GameMode.Playing, 1⟩

def ckB40 : State := ⟨⟨121, 41, 2, 2⟩, 0, [], GameMode.Playing, 1⟩

/-- After the 45 no-flap frames following `ckA76`: a reachable Playing state
with an empty obstacle list whose player has fallen to y = 51, one row past
the bottom of the screen. -/
def ckB45 : State := ⟨⟨126, 51, 2, 1⟩, 0, [], GameMode.Playing, 1⟩

set_option maxRecDepth 8000 in
theorem runB1 : runFrames ckA76 (List.replicate 10 iB) = ckB10 := by
  with_unfolding_all decide

set_option maxRecDepth 8000 in
theorem runB2 : runFrames ckB10 (List.replicate 10 iB) = ckB20 := by
  with_unfolding_all decide

set_option maxRecDepth 8000 in
theorem runB3 : runFrames ckB20 (List.replicate 10 iB) = ckB30 := by
  with_unfolding_all decide

set_option maxRecDepth 8000 in
theorem runB4 : runFrames ckB30 (List.replicate 10 iB) = ckB40 := by
  with_unfolding_all decide

set_option maxRecDepth 8000 in
theorem runB5 : runFrames ckB40 (List.replicate 5 iB) = ckB45 := by
  with_unfolding_all decide

/-- 76 flap frames (player passes the initial obstacle) followed by 45
no-flap frames (player falls past the bottom of the screen while the
obstacle list is empty). -/
def c4Inputs : List FrameInput :=
  List.replicate 10 iA ++ (List.replicate 10 iA ++ (List.replicate 10 iA ++
    (List.replicate 10 iA ++ (List.replicate 10 iA ++ (List.replicate 10 iA ++
      (List.replicate 10 iA ++ (List.replicate 6 iA ++ (List.replicate 10 iB ++
        (List.replicate 10 iB ++ (List.replicate 10 iB ++ (List.replicate 10 iB ++
          List.replicate 5 iB)))))))))))

/-- The `c4Inputs` run from a fresh session lands exactly on `ckB45`. -/
theorem reach_ckB45 : runFrames (State.restart 20) c4Inputs = ckB45 := by
  rw [c4Inputs, runFrames_append, runA1, runFrames_append, runA2,
    runFrames_append, runA3, runFrames_append, runA4, runFrames_append, runA5,
    runFrames_append, runA6, runFrames_append, runA7, runFrames_append, runA8,
    runFrames_append, runB1, runFrames_append, runB2, runFrames_append, runB3,
    runFrames_append, runB4, runB5]

/-- A double-spawn opening: one 50 ms flap frame whose spawn condition
fires (accumulator reset to 0, so `0 as i32 % 50 == 0`, and roll 10
satisfies `10 % 10 == 0`), then a 0.5 ms frame with no tick whose spawn
condition fires again (`0.5 as i32 = 0`): the player has not moved between
the two draws, so two obstacles are pushed at the same position 86. -/
def doubleSpawn : List FrameInput :=
  [⟨50, some Key.Space, 10, 20⟩, ⟨1/2, some Key.Space, 10, 20⟩]

/-- The state after `doubleSpawn`: three obstacles at 80, 86, 86. -/
def ckC0 : State :=
  ⟨⟨6, 251/10, -1, 1⟩, 1/2, [ob80, ob86, ob86], GameMode.Playing, 0⟩

def ckC10 : State := ⟨⟨16, 161/10, -1, 5⟩, 0, [ob80, ob86, ob86], GameMode.Playing, 0⟩

def ckC20 : State := ⟨⟨26, 71/10, -1, 3⟩, 0, [ob80, ob86, ob86], GameMode.Playing, 0⟩

def ckC30 : State := ⟨⟨36, 0, -1, 1⟩, 0, [ob80, ob86, ob86], GameMode.Playing, 0⟩

def ckC40 : State := ⟨⟨46, 0, -1, 5⟩, 0, [ob80, ob86, ob86], GameMode.Playing, 0⟩

def ckC50 : State := ⟨⟨56, 0, -1, 3⟩, 0, [ob80, ob86, ob86], GameMode.Playing, 0⟩

def ckC60 : State := ⟨⟨66, 0, -1, 1⟩, 0, [ob80, ob86, ob86], GameMode.Playing, 0⟩

def ckC70 : State := ⟨⟨76, 0, -1, 5⟩, 0, [ob80, ob86, ob86], GameMode.Playing, 0⟩

/-- After 80 further flap frames the player (x = 86) has passed the
obstacle at 80 (score 1, head removed) and sits exactly on the two
duplicated obstacles at 86. -/
def ckC80 : State := ⟨⟨86, 0, -1, 3⟩, 0, [ob86, ob86], GameMode.Playing, 1⟩

set_option maxRecDepth 8000 in
theorem runC0 : runFrames (State.restart 20) doubleSpawn = ckC0 := by
  with_unfolding_all decide

set_option maxRecDepth 8000 in
theorem runC1 : runFrames ckC0 (List.replicate 10 iA) = ckC10 := by
  with_unfolding_all decide

set_option maxRecDepth 8000 in
theorem runC2 : runFrames ckC10 (List.replicate 10 iA) = ckC20 := by
  with_unfolding_all decide

set_option maxRecDepth 8000 in
theorem runC3 : runFrames ckC20 (List.replicate 10 iA) = ckC30 := by
  with_unfolding_all decide

set_option maxRecDepth 8000 in
theorem runC4 : runFrames ckC30 (List.replicate 10 iA) = ckC40 := by
  with_unfolding_all decide

set_option maxRecDepth 8000 in
theorem runC5 : runFrames ckC40 (List.replicate 10 iA) = ckC50 := by
  with_unfolding_all decide

set_option maxRecDepth 8000 in
theorem runC6 : runFrames ckC50 (List.replicate 10 iA) = ckC60 := by
  with_unfolding_all decide

set_option maxRecDepth 8000 in
theorem runC7 : runFrames ckC60 (List.replicate 10 iA) = ckC70 := by
  with_unfolding_all decide

set_option maxRecDepth 8000 in
theorem runC8 : runFrames ckC70 (List.replicate 10 iA) = ckC80 := by
  with_unfolding_all decide

/-- The `doubleSpawn` opening followed by 80 flap frames. -/
def c3Inputs : List FrameInput :=
  doubleSpawn ++ (List.replicate 10 iA ++ (List.replicate 10 iA ++
    (List.replicate 10 iA ++ (List.replicate 10 iA ++ (List.replicate 10 iA ++
      (List.replicate 10 iA ++ (List.replicate 10 iA ++ List.replicate 10 iA)))))))

/-- The `c3Inputs` run from a fresh session lands exactly on `ckC80`. -/
theorem reach_ckC80 : runFrames (State.restart 20) c3Inputs = ckC80 := by
  rw [c3Inputs, runFrames_append, runC0, runFrames_append, runC1,
    runFrames_append, runC2, runFrames_append, runC3, runFrames_append, runC4,
    runFrames_append, runC5, runFrames_append, runC6, runFrames_append, runC7,
    runC8]

/-- Claim C1, counterexample.  The claim states that `hit_obstacle` returns
true iff the horizontal positions match and the player's vertical position
is strictly outside the closed interval
[gap_center − half_size, gap_center + half_size].  That is false for
fractional vertical positions: for the obstacle with gap center 25 and
half-size 20 (interval [5, 45]) and a player at the same horizontal
position with vertical position 45.5 — strictly below the interval — the
code casts 45.5 to the integer 45, which is not strictly outside, and
reports no hit. -/
theorem hit_obstacle_fractional_counterexample :
    (Player.mk 80 (91/2) 0 0).x = (Obstacle.new 80 25).x ∧
    (((Obstacle.new 80 25).gap_y + i32div (Obstacle.new 80 25).size 2 : Int) : Rat) <
      (Player.mk 80 (91/2) 0 0).y ∧
    (Obstacle.new 80 25).hit_obstacle (Player.mk 80 (91/2) 0 0) = false := by
  refine ⟨rfl, ?_, by with_unfolding_all decide⟩
  show ((45 : Int) : Rat) < 91/2
  norm_num

/-- Claim C1, amended: `hit_obstacle` returns true iff the player's
horizontal position exactly equals the obstacle's and the player's vertical
position truncated to an integer (the `y as i32` cast) is strictly outside
the closed interval [gap_center − half_size, gap_center + half_size]; in
particular it returns false whenever the horizontal positions differ. -/
theorem hit_obstacle_iff (o : Obstacle) (p : Player) :
    o.hit_obstacle p = true ↔
      p.x = o.x ∧ (ratTruncToInt p.y < o.gap_y - i32div o.size 2 ∨
        o.gap_y + i32div o.size 2 < ratTruncToInt p.y) := by
  simp [Obstacle.hit_obstacle]

/-- Claim C2, counterexample.  The claim states that the gap of every
obstacle created by `Obstacle::new` lies fully within the playable vertical
range (with a top/bottom margin of at least half the gap size).  But the
gap center is drawn from [5, 45) while the half-size is 20: the valid draw
5 produces a gap whose top edge, 5 − 20 = −15, is far above the top of the
screen (row 0). -/
theorem obstacle_gap_margin_counterexample :
    ((5 : Int) ≤ 5 ∧ (5 : Int) < 45) ∧
    (Obstacle.new 80 5).gap_y - i32div (Obstacle.new 80 5).size 2 < 0 := by
  with_unfolding_all decide

/-- Claim C2, amended: for every spawn position and every valid gap draw
`g` (with `5 ≤ g < 45`), the obstacle has gap center `g` and size 40
(half-size 20); the gap edges are only guaranteed to lie in [−15, 64],
which exceeds the playable vertical range [0, 48] on both sides — the
margin excluded by the draw range is 5 rows, less than the half-size 20. -/
theorem obstacle_gap_bounds (x g : Int) (h1 : 5 ≤ g) (h2 : g < 45) :
    (Obstacle.new x g).x = x ∧ (Obstacle.new x g).gap_y = g ∧
    (Obstacle.new x g).size = 40 ∧
    -15 ≤ (Obstacle.new x g).gap_y - i32div (Obstacle.new x g).size 2 ∧
    (Obstacle.new x g).gap_y + i32div (Obstacle.new x g).size 2 ≤ 64 := by
  have hs : (Obstacle.new x g).size = 40 := rfl
  have hd : i32div (40 : Int) 2 = 20 := by decide
  refine ⟨rfl, rfl, hs, ?_, ?_⟩ <;> rw [hs, hd] <;>
    simp only [Obstacle.new] <;> omega

/-- Witness for `obstacle_gap_bounds` at spawn position 80 and draw 10. -/
theorem obstacle_gap_bounds_witness :
    ((5 : Int) ≤ 10 ∧ (10 : Int) < 45) ∧
    ((Obstacle.new 80 10).x = 80 ∧ (Obstacle.new 80 10).gap_y = 10 ∧
      (Obstacle.new 80 10).size = 40 ∧
      -15 ≤ (Obstacle.new 80 10).gap_y - i32div (Obstacle.new 80 10).size 2 ∧
      (Obstacle.new 80 10).gap_y + i32div (Obstacle.new 80 10).size 2 ≤ 64) :=
  ⟨by with_unfolding_all decide, obstacle_gap_bounds 80 10 (by decide) (by decide)⟩

/-- `Player::gravity_and_mode` iterated from the initial player
`Player::new(5, 25)` with no flap input. -/
def iterTicks : Nat → Player
  | 0 => Player.new 5 25
  | n + 1 => (iterTicks n).gravity_and_mode

/-- With no flap input from the initial state, velocity and vertical
position stay nonnegative at every tick. -/
theorem iterTicks_nonneg (n : Nat) :
    0 ≤ (iterTicks n).velocity ∧ 0 ≤ (iterTicks n).y := by
  induction n with
  | zero =>
    constructor <;> norm_num [iterTicks, Player.new]
  | succ n ih =>
    obtain ⟨hv, hy⟩ := ih
    unfold iterTicks Player.gravity_and_mode
    dsimp only
    constructor
    · split <;> linarith
    · split <;> split <;> linarith

/-- Claim C5: for all tick counts n, starting from the initial player state
and applying n physics ticks with no flap input, the vertical position is
nonnegative and non-decreasing from tick to tick (the clamp at 0 never cuts
in: the screen-coordinate y only grows, i.e. the dragon only falls). -/
theorem no_flap_descent (n : Nat) :
    0 ≤ (iterTicks n).y ∧ (iterTicks n).y ≤ (iterTicks (n + 1)).y := by
  obtain ⟨hv, hy⟩ := iterTicks_nonneg n
  refine ⟨hy, ?_⟩
  show (iterTicks n).y ≤ (iterTicks n).gravity_and_mode.y
  unfold Player.gravity_and_mode
  dsimp only
  split <;> split <;> linarith

/-- Claim C6: each Playing-mode frame adds the elapsed wall-clock frame
time to the accumulator; when the result exceeds FRAME_DURATION (40 ms)
the accumulator is reset to 0 and exactly one physics update
(`gravity_and_mode`: gravity, position, horizontal advance by one,
animation advance) is applied to the player that frame — followed only by
the key handler, which can additionally apply `flap` (touching only the
velocity); otherwise the accumulator keeps the summed value and no physics
update is applied. -/
theorem frame_accumulator_behavior (s : State) (inp : FrameInput) :
    (s.frame_time + inp.frame_time_ms > FRAME_DURATION →
      (s.play inp).frame_time = 0 ∧
      (s.play inp).player =
        (if inp.key = some Key.Space then (s.player.gravity_and_mode).flap
         else s.player.gravity_and_mode)) ∧
    (¬ s.frame_time + inp.frame_time_ms > FRAME_DURATION →
      (s.play inp).frame_time = s.frame_time + inp.frame_time_ms ∧
      (s.play inp).player =
        (if inp.key = some Key.Space then s.player.flap else s.player)) := by
  constructor <;> intro h
  · have ht : s.tickFires inp = true := by
      simp [State.tickFires, State.tickTime, h]
    simp [State.play, State.frameAccum, State.framePlayer, ht]
  · have ht : s.tickFires inp = false := by
      simp [State.tickFires, State.tickTime, h]
    simp [State.play, State.frameAccum, State.framePlayer, State.tickTime, ht]

/-- Witness for `frame_accumulator_behavior`: from a fresh session, a 50 ms
frame with no key crosses the 40 ms threshold, resets the accumulator and
applies exactly one `gravity_and_mode`. -/
theorem frame_accumulator_witness :
    ((State.restart 20).frame_time + iB.frame_time_ms > FRAME_DURATION) ∧
    ((State.restart 20).play iB).frame_time = 0 ∧
    ((State.restart 20).play iB).player = (State.restart 20).player.gravity_and_mode := by
  have h : (State.restart 20).frame_time + iB.frame_time_ms > FRAME_DURATION := by
    with_unfolding_all decide
  have h2 := (frame_accumulator_behavior (State.restart 20) iB).1 h
  refine ⟨h, h2.1, ?_⟩
  have h3 := h2.2
  rw [if_neg (by with_unfolding_all decide : ¬ iB.key = some Key.Space)] at h3
  exact h3

/-- Round the fraction `P / Q` (with `Q > 0`) to the nearest integer,
ties to even — the rounding of IEEE 754 round-to-nearest-even, expressed on
the scaled significand. -/
def roundHalfEven (P Q : Nat) : Nat :=
  let t := P / Q
  let r := P % Q
  if 2 * r < Q then t
  else if Q < 2 * r then t + 1
  else if t % 2 = 0 then t else t + 1

/-- Binary length of a natural number (`bitLen n` is the number of binary
digits of `n`, so `2 ^ (bitLen n - 1) ≤ n < 2 ^ bitLen n` for `n ≥ 1`),
written with an explicit fuel argument to keep the recursion structural. -/
def bitLenAux : Nat → Nat → Nat
  | 0, _ => 0
  | fuel + 1, n => if n = 0 then 0 else bitLenAux fuel (n / 2) + 1

/-- Binary length of a natural number. -/
def bitLen (n : Nat) : Nat := bitLenAux n n

/-- `2 ^ e` for an integer exponent, computed through natural powers. -/
def pow2 (e : Int) : Rat :=
  if 0 ≤ e then (2 : Rat) ^ e.toNat else ((2 : Rat) ^ (-e).toNat)⁻¹

/-- The binary exponent of a positive rational: the unique `e` with
`2 ^ e ≤ a < 2 ^ (e + 1)`, located from the binary lengths of numerator and
denominator and corrected by one comparison. -/
def f32exp (a : Rat) : Int :=
  let d : Int := (bitLen a.num.toNat : Int) - (bitLen a.den : Int)
  if pow2 d ≤ a then d else d - 1

/-- Rounding of a positive rational to 24 significant binary digits: scale
the argument into the significand range [2^23, 2^24) and round to the
nearest integer, ties to even. -/
def f32roundPos (a : Rat) : Rat :=
  let e := f32exp a
  let m := a * pow2 (23 - e)
  mkRat ((roundHalfEven m.num.toNat m.den : Nat) : Int) 1 * pow2 (e - 23)

/-- IEEE 754 binary32 (f32) rounding, round to nearest with ties to even,
on exact rationals: every result carries at most 24 significant binary
digits.  Subnormal flushing and overflow to infinity are not modelled; on
the normal range — which covers every value arising in this program — this
agrees exactly with f32 arithmetic. -/
def f32round (x : Rat) : Rat :=
  if x = 0 then 0
  else if x < 0 then -f32roundPos (-x) else f32roundPos x

/-- The f32 literal `0.1` of the source: the binary32 value nearest 1/10,
namely 13421773 / 2^27 = 0.100000001490116119384765625, slightly above
1/10. -/
def c01f32 : Rat := mkRat 13421773 134217728

/-- `c01f32` as a quotient. -/
theorem c01f32_eq : c01f32 = 13421773 / 134217728 := by
  rw [c01f32, Rat.mkRat_eq_div]
  norm_num

/-- Numeric bounds on `c01f32` used below. -/
theorem c01f32_bounds : 1/16 < c01f32 ∧ c01f32 < 1/8 := by
  rw [c01f32_eq]
  norm_num

set_option maxRecDepth 4000 in
/-- Sanity check: rounding 1/10 to binary32 yields exactly `c01f32`. -/
theorem f32round_tenth : f32round (1/10) = c01f32 :=
  Rat.ext (by with_unfolding_all decide) (by with_unfolding_all decide)

/-- `Player::gravity_and_mode` of src/main.rs under IEEE binary32 (f32)
arithmetic: the literal `0.1` is the binary32 value `c01f32` and each f32
addition rounds its exact sum with `f32round`; the comparisons against 2.0
and 0.0, the clamp to 0.0 and the integer updates are exact in f32. -/
def Player.gravity_and_mode_f32 (p : Player) : Player :=
  let v := if p.velocity < 2 then f32round (p.velocity + c01f32) else p.velocity
  let y0 := f32round (p.y + v)
  let y1 := if y0 < 0 then 0 else y0
  { x := p.x + 1, y := y1, velocity := v, frame := (p.frame + 1) % 6 }

/-- Player states reachable in the program under f32 semantics: the player
created by `State::new` / `State::restart`, closed under the two mutating
operations `gravity_and_mode` (f32 version) and `flap` (exact in f32). -/
inductive PlayerReachF32 : Player → Prop where
  | init : PlayerReachF32 (Player.new 5 25)
  | tick {p : Player} : PlayerReachF32 p → PlayerReachF32 p.gravity_and_mode_f32
  | flap {p : Player} : PlayerReachF32 p → PlayerReachF32 p.flap

/-- The f32-semantics physics tick iterated from the initial player with no
flap input. -/
def iterTicksF32 : Nat → Player
  | 0 => Player.new 5 25
  | n + 1 => (iterTicksF32 n).gravity_and_mode_f32

/-- Every state of the no-flap f32 trajectory is reachable. -/
theorem iterTicksF32_reach (n : Nat) : PlayerReachF32 (iterTicksF32 n) := by
  induction n with
  | zero => exact PlayerReachF32.init
  | succ n ih => exact PlayerReachF32.tick ih

/-- `roundHalfEven` is within 1/2 of the exact fraction. -/
theorem roundHalfEven_err (P Q : Nat) (hQ : 0 < Q) :
    |(roundHalfEven P Q : Rat) - (P : Rat) / (Q : Rat)| ≤ 1 / 2 := by
  have hQ' : (0 : Rat) < (Q : Rat) := by exact_mod_cast hQ
  have hrlt : P % Q < Q := Nat.mod_lt _ hQ
  have hPQ : (P : Rat) / (Q : Rat) = ((P / Q : Nat) : Rat) + ((P % Q : Nat) : Rat) / Q := by
    field_simp
    exact_mod_cast (Nat.div_add_mod' P Q).symm
  have hr0 : (0 : Rat) ≤ ((P % Q : Nat) : Rat) / Q := by positivity
  have hr1 : ((P % Q : Nat) : Rat) / Q < 1 := by
    rw [div_lt_one hQ']
    exact_mod_cast hrlt
  unfold roundHalfEven
  dsimp only
  split
  · rename_i hc
    have hhalf : ((P % Q : Nat) : Rat) / Q ≤ 1 / 2 := by
      rw [div_le_div_iff₀ hQ' (by norm_num : (0:Rat) < 2), one_mul]
      exact_mod_cast (by omega : (P % Q) * 2 ≤ Q)
    rw [hPQ, abs_le]
    constructor <;> linarith
  · split
    · rename_i hc1 hc2
      have hhalf : 1 / 2 ≤ ((P % Q : Nat) : Rat) / Q := by
        rw [div_le_div_iff₀ (by norm_num : (0:Rat) < 2) hQ', one_mul]
        exact_mod_cast (by omega : Q ≤ (P % Q) * 2)
      rw [hPQ]
      push_cast
      rw [abs_le]
      constructor <;> linarith
    · rename_i hc1 hc2
      have hhalf : ((P % Q : Nat) : Rat) / Q = 1 / 2 := by
        rw [div_eq_div_iff (ne_of_gt hQ') (by norm_num : (2:Rat) ≠ 0), one_mul]
        exact_mod_cast (by omega : (P % Q) * 2 = Q)
      split <;> (rw [hPQ, hhalf]; push_cast; rw [abs_le]; constructor <;> linarith)

/-- `pow2` agrees with the integer power. -/
theorem pow2_eq (e : Int) : pow2 e = (2 : Rat) ^ e := by
  unfold pow2
  split
  · rename_i h
    rw [← zpow_natCast, Int.toNat_of_nonneg h]
  · rename_i h
    rw [← zpow_natCast, Int.toNat_of_nonneg (by omega : (0:Int) ≤ -e), zpow_neg, inv_inv]

/-- `bitLenAux` with enough fuel satisfies the binary-length bounds. -/
theorem bitLenAux_spec (fuel : Nat) :
    ∀ n, n ≤ fuel → 1 ≤ n →
      2 ^ (bitLenAux fuel n - 1) ≤ n ∧ n < 2 ^ bitLenAux fuel n := by
  induction fuel with
  | zero =>
    intro n h1 h2
    omega
  | succ fuel ih =>
    intro n h1 h2
    unfold bitLenAux
    rw [if_neg (by omega : ¬ n = 0)]
    by_cases hsmall : n / 2 = 0
    · have hn1 : n = 1 := by omega
      subst hn1
      rw [hsmall]
      have h0 : bitLenAux fuel 0 = 0 := by cases fuel <;> rfl
      rw [h0]
      norm_num
    · have hrec : n / 2 ≤ fuel := by omega
      obtain ⟨hlo, hhi⟩ := ih (n / 2) hrec (by omega)
      have hL1 : 1 ≤ bitLenAux fuel (n / 2) := by
        by_contra hL
        have : bitLenAux fuel (n / 2) = 0 := by omega
        rw [this] at hhi
        omega
      obtain ⟨l, hl⟩ : ∃ l, bitLenAux fuel (n / 2) = l + 1 :=
        ⟨bitLenAux fuel (n / 2) - 1, by omega⟩
      rw [hl] at hlo hhi
      rw [hl]
      constructor
      · have he : l + 1 + 1 - 1 = l + 1 := by omega
        rw [he, pow_succ]
        have he2 : l + 1 - 1 = l := by omega
        rw [he2] at hlo
        omega
      · rw [pow_succ]
        omega

/-- The binary-length bounds for `bitLen`. -/
theorem bitLen_spec (n : Nat) (h : 1 ≤ n) :
    2 ^ (bitLen n - 1) ≤ n ∧ n < 2 ^ bitLen n :=
  bitLenAux_spec n n le_rfl h

/-- The exponent chosen by `f32exp` never exceeds 1 for arguments below 4,
so the rounding grid there is never coarser than 2 ^ (1 - 23). -/
theorem f32exp_le (a : Rat) (ha0 : 0 < a) (ha : a < 4) : f32exp a ≤ 1 := by
  unfold f32exp
  dsimp only
  split
  · rename_i hle
    rw [pow2_eq] at hle
    have h4 : (4 : Rat) = (2 : Rat) ^ (2 : Int) := by norm_num
    have : ((bitLen a.num.toNat : Int) - (bitLen a.den : Int)) < 2 :=
      (zpow_lt_zpow_iff_right₀ (by norm_num : (1:Rat) < 2)).mp
        (lt_of_le_of_lt hle (h4 ▸ ha))
    omega
  · -- the uncorrected estimate is at most 2 whenever a < 4
    have hnum1 : 1 ≤ a.num.toNat := by
      have := Rat.num_pos.mpr ha0
      omega
    have hden1 : 1 ≤ a.den := Rat.den_pos a
    have hnd : a.num.toNat < 4 * a.den := by
      have hlt : (a.num : Rat) < 4 * (a.den : Rat) := by
        have hden' : (0 : Rat) < (a.den : Rat) := by exact_mod_cast hden1
        have := (div_lt_iff₀ hden').mp (by rw [Rat.num_div_den]; exact ha)
        linarith
      have : a.num < 4 * (a.den : Int) := by exact_mod_cast hlt
      omega
    have hhi := (bitLen_spec a.num.toNat hnum1).1
    have hlo := (bitLen_spec a.den hden1).2
    -- a.num.toNat < 4 * a.den < 2 ^ (bitLen a.den + 2)
    have hub : a.num.toNat < 2 ^ (bitLen a.den + 2) := by
      have h4d : 4 * a.den < 4 * 2 ^ bitLen a.den := by omega
      have : 4 * 2 ^ bitLen a.den = 2 ^ (bitLen a.den + 2) := by ring
      omega
    have hble : bitLen a.num.toNat ≤ bitLen a.den + 2 := by
      by_contra hc
      push_neg at hc
      have h1 : bitLen a.den + 2 ≤ bitLen a.num.toNat - 1 := by omega
      have h2 : 2 ^ (bitLen a.den + 2) ≤ 2 ^ (bitLen a.num.toNat - 1) :=
        (Nat.pow_le_pow_iff_right (by norm_num : 1 < 2)).mpr h1
      omega
    omega

/-- The 24-bit rounding of a positive rational below 4 is within
2 ^ (-23) of the argument (half an ulp at the largest admissible
exponent 1). -/
theorem f32roundPos_err (a : Rat) (ha0 : 0 < a) (ha : a < 4) :
    |f32roundPos a - a| ≤ 1 / 2 ^ 23 := by
  have he1 : f32exp a ≤ 1 := f32exp_le a ha0 ha
  unfold f32roundPos
  dsimp only
  set e := f32exp a with hedef
  set m := a * pow2 (23 - e) with hmdef
  have hpowA : (0:Rat) < pow2 (23 - e) := by rw [pow2_eq]; positivity
  have hpowB : (0:Rat) < pow2 (e - 23) := by rw [pow2_eq]; positivity
  have hm0 : 0 < m := mul_pos ha0 hpowA
  have hmnum : (0:Int) ≤ m.num := le_of_lt (Rat.num_pos.mpr hm0)
  have hcastnum : ((m.num.toNat : Nat) : Rat) = ((m.num : Int) : Rat) := by
    exact_mod_cast Int.toNat_of_nonneg hmnum
  have hcast : ((m.num.toNat : Nat) : Rat) / (m.den : Rat) = m := by
    rw [hcastnum, Rat.num_div_den]
  have hre := roundHalfEven_err m.num.toNat m.den (Rat.den_pos m)
  rw [hcast] at hre
  have hmk : mkRat ((roundHalfEven m.num.toNat m.den : Nat) : Int) 1 =
      ((roundHalfEven m.num.toNat m.den : Nat) : Rat) := by
    rw [Rat.mkRat_one]
    push_cast
    ring
  rw [hmk]
  have ha_eq : a = m * pow2 (e - 23) := by
    rw [hmdef, mul_assoc, pow2_eq, pow2_eq, ← zpow_add₀ (by norm_num : (2:Rat) ≠ 0)]
    norm_num
  calc |((roundHalfEven m.num.toNat m.den : Nat) : Rat) * pow2 (e - 23) - a|
      = |((roundHalfEven m.num.toNat m.den : Nat) : Rat) - m| * pow2 (e - 23) := by
        rw [ha_eq, ← sub_mul, abs_mul, abs_of_pos hpowB]
    _ ≤ (1/2) * pow2 (e - 23) :=
        mul_le_mul_of_nonneg_right hre (le_of_lt hpowB)
    _ ≤ (1/2) * pow2 (1 - 23) := by
        refine mul_le_mul_of_nonneg_left ?_ (by norm_num)
        rw [pow2_eq, pow2_eq]
        exact zpow_le_zpow_right₀ (by norm_num : (1:Rat) ≤ 2) (by omega)
    _ ≤ 1 / 2 ^ 23 := by
        rw [pow2_eq]
        rw [show ((1:Int) - 23) = -(22:Int) by norm_num, zpow_neg,
          show ((22:Int) = ((22:Nat):Int)) from rfl, zpow_natCast]
        norm_num

/-- The binary32 rounding of any rational of magnitude below 4 is within
2 ^ (-23) of the argument. -/
theorem f32round_err (x : Rat) (hx : |x| < 4) : |f32round x - x| ≤ 1 / 2 ^ 23 := by
  unfold f32round
  split
  · rename_i h
    subst h
    norm_num
  · split
    · rename_i h0 hneg
      have h1 : 0 < -x := neg_pos.mpr hneg
      have h2 : -x < 4 := by rw [abs_of_neg hneg] at hx; exact hx
      have herr := f32roundPos_err (-x) h1 h2
      have hflip : -f32roundPos (-x) - x = -(f32roundPos (-x) - -x) := by ring
      rw [hflip, abs_neg]
      exact herr
    · rename_i h0 hneg
      have h1 : 0 < x := lt_of_le_of_ne (not_lt.mp hneg) (Ne.symm h0)
      have h2 : x < 4 := by rw [abs_of_pos h1] at hx; exact hx
      exact f32roundPos_err x h1 h2

/-- Velocity bounds on reachable f32 player states: at least −1 (the flap
value) and at most one rounded gravity increment above the 2.0 threshold. -/
theorem playerReachF32_velocity_bounds (p : Player) (h : PlayerReachF32 p) :
    -1 ≤ p.velocity ∧ p.velocity ≤ 2 + c01f32 + 1 / 2 ^ 23 := by
  obtain ⟨hc1, hc2⟩ := c01f32_bounds
  induction h with
  | init =>
    constructor
    · norm_num [Player.new]
    · norm_num [Player.new]
      linarith
  | @tick q h ih =>
    obtain ⟨hlo, hhi⟩ := ih
    unfold Player.gravity_and_mode_f32
    dsimp only
    split
    · rename_i hlt
      have hx : |q.velocity + c01f32| < 4 := by
        rw [abs_lt]
        constructor <;> linarith
      have herr := f32round_err _ hx
      rw [abs_sub_le_iff] at herr
      constructor <;> linarith [herr.1, herr.2]
    · exact ⟨hlo, hhi⟩
  | flap h ih =>
    constructor
    · norm_num [Player.flap]
    · norm_num [Player.flap]
      linarith

set_option maxRecDepth 4000 in
/-- Claim C7, counterexample.  The claim states that in every reachable
player state the velocity never exceeds the maximum fall speed 2.0.  Under
the program's f32 arithmetic this is false: `0.1f32` is slightly above
1/10, so the no-flap trajectory from the initial player reaches velocity
1.9000003 < 2 at tick 19 and the tick-20 increment lands on
2 + 2^(-22) = 2.000000238 > 2.0 — a reachable, live state (its vertical
position is 46, within the screen). -/
theorem velocity_cap_counterexample :
    PlayerReachF32 (iterTicksF32 20) ∧
    (iterTicksF32 20).velocity.num = 8388609 ∧
    (iterTicksF32 20).velocity.den = 4194304 ∧
    2 < (iterTicksF32 20).velocity ∧
    ratTruncToInt (iterTicksF32 20).y ≤ SCREEN_HEIGHT :=
  ⟨iterTicksF32_reach 20, by with_unfolding_all decide, by with_unfolding_all decide,
    by with_unfolding_all decide, by with_unfolding_all decide⟩

/-- Claim C7, amended: under f32 semantics, `gravity_and_mode` increases
the velocity by the f32 increment `0.1f32` (rounding the f32 sum) exactly
when the velocity is below 2.0; `flap` overwrites the velocity with the
fixed constant −1.0; and in every reachable player state the velocity
exceeds the 2.0 threshold by at most one rounded increment:
velocity ≤ 2 + 0.1f32 + 2^(-23) (≈ 2.1000001).  The threshold 2.0 itself
can be exceeded — see the counterexample. -/
theorem velocity_capped_f32 (p : Player) :
    (p.gravity_and_mode_f32.velocity =
      if p.velocity < 2 then f32round (p.velocity + c01f32) else p.velocity) ∧
    p.flap.velocity = -1 ∧
    (PlayerReachF32 p → p.velocity ≤ 2 + c01f32 + 1 / 2 ^ 23) :=
  ⟨rfl, rfl, fun h => (playerReachF32_velocity_bounds p h).2⟩

/-- Witness for `velocity_capped_f32`: the player after one f32 tick from
the initial state is reachable and its velocity is within the bound. -/
theorem velocity_capped_f32_witness :
    (Player.new 5 25).gravity_and_mode_f32.velocity ≤ 2 + c01f32 + 1 / 2 ^ 23 :=
  (velocity_capped_f32 (Player.new 5 25).gravity_and_mode_f32).2.2
    (PlayerReachF32.tick PlayerReachF32.init)

/-- On reachable players, the animation frame index is below 6. -/
theorem playerReach_frame (p : Player) (h : PlayerReach p) : p.frame < 6 := by
  induction h with
  | init => norm_num [Player.new]
  | tick h ih =>
    show (_ + 1) % 6 < 6
    omega
  | flap h ih => exact ih

/-- Claim C10: in every reachable player state the animation frame index is
strictly below the length of DRAGON_FRAMES (6), so the rendering access
`DRAGON_FRAMES[self.frame]` is always in bounds and never panics. -/
theorem dragon_frames_in_bounds (p : Player) (h : PlayerReach p) :
    p.frame < DRAGON_FRAMES.length ∧ DRAGON_FRAMES[p.frame]?.isSome = true := by
  have h6 : p.frame < 6 := playerReach_frame p h
  refine ⟨h6, ?_⟩
  have : p.frame = 0 ∨ p.frame = 1 ∨ p.frame = 2 ∨ p.frame = 3 ∨ p.frame = 4 ∨
      p.frame = 5 := by omega
  rcases this with h | h | h | h | h | h <;> rw [h] <;> rfl

/-- Witness for `dragon_frames_in_bounds` at the initial player. -/
theorem dragon_frames_in_bounds_witness :
    (Player.new 5 25).frame < DRAGON_FRAMES.length ∧
    DRAGON_FRAMES[(Player.new 5 25).frame]?.isSome = true :=
  dragon_frames_in_bounds _ PlayerReach.init

/-- Claim C4, counterexample.  The claim states that whenever, during
Playing mode, the player's vertical position exceeds the bottom boundary,
the mode transitions to Dead on that tick.  But the death checks run only
inside the loop over the obstacle list: `c4Inputs` drives a fresh session
to the reachable state `ckB45` — Playing, empty obstacle list, vertical
position 51 (past the bottom boundary 50) — and one more frame (5 ms, no
key, no tick, no spawn since `5 % 50 ≠ 0`) still leaves the mode
Playing. -/
theorem fall_past_bottom_counterexample :
    (runFrames (State.restart 20) c4Inputs).mode = GameMode.Playing ∧
    (runFrames (State.restart 20) c4Inputs).obstacles = [] ∧
    ratTruncToInt (runFrames (State.restart 20) c4Inputs).player.y > SCREEN_HEIGHT ∧
    ((runFrames (State.restart 20) c4Inputs).play ⟨5, none, 1, 0⟩).mode =
      GameMode.Playing := by
  rw [reach_ckB45]
  with_unfolding_all decide

/-- Claim C4, amended: whenever during a Playing-mode frame the obstacle
stream is nonempty and the player's vertical position, truncated to an
integer by the `y as i32` cast, exceeds SCREEN_HEIGHT (50), the mode
transitions to End (the dead screen) on that frame, regardless of key
input.  (With an empty obstacle stream the death check is skipped — see the
counterexample.) -/
theorem fall_past_bottom_dies (s : State) (inp : FrameInput)
    (hobs : s.obstacles ≠ [])
    (hy : ratTruncToInt ((s.framePlayer inp).y) > SCREEN_HEIGHT) :
    (s.play inp).mode = GameMode.End := by
  have hobs1 : s.frameObstacles inp ≠ [] := by
    unfold State.frameObstacles
    split
    · simp
    · exact hobs
  obtain ⟨o, t, ho⟩ := List.exists_cons_of_ne_nil hobs1
  unfold State.play
  dsimp only
  rw [ho]
  simp [List.any_cons, decide_eq_true hy]

/-- Witness for `fall_past_bottom_dies`: a Playing state with one obstacle
and the player at y = 60; a 5 ms frame ends in mode End. -/
theorem fall_past_bottom_dies_witness :
    (⟨⟨5, 60, 0, 0⟩, 0, [ob80], GameMode.Playing, 0⟩ : State).obstacles ≠ [] ∧
    ratTruncToInt (((⟨⟨5, 60, 0, 0⟩, 0, [ob80], GameMode.Playing, 0⟩ : State).framePlayer
      ⟨5, none, 1, 0⟩).y) > SCREEN_HEIGHT ∧
    ((⟨⟨5, 60, 0, 0⟩, 0, [ob80], GameMode.Playing, 0⟩ : State).play
      ⟨5, none, 1, 0⟩).mode = GameMode.End :=
  ⟨by with_unfolding_all decide, by with_unfolding_all decide,
    fall_past_bottom_dies _ _ (by with_unfolding_all decide)
      (by with_unfolding_all decide)⟩

/-- Claim C9, counterexample.  The claim states that with an empty obstacle
stream the Playing-mode handler never transitions to Dead.  But the spawn
step can repopulate the list in the same frame, after which the
bottom-boundary check fires: from the reachable state `ckB45` (Playing,
empty stream, y = 51), a 50 ms frame whose spawn rolls succeed
(`0 % 50 == 0` after the tick reset and roll `10 % 10 == 0`) ends in mode
End. -/
theorem empty_stream_death_counterexample :
    (runFrames (State.restart 20) c4Inputs).obstacles = [] ∧
    (runFrames (State.restart 20) c4Inputs).mode = GameMode.Playing ∧
    ((runFrames (State.restart 20) c4Inputs).play ⟨50, none, 10, 20⟩).mode =
      GameMode.End := by
  rw [reach_ckB45]
  with_unfolding_all decide

/-- Claim C9, amended: if the obstacle list is empty when the death loop
runs — that is, it was empty at frame entry and no obstacle was spawned
this frame — then the Playing-mode handler never sets the mode to End, and
absent the Escape key the mode stays Playing regardless of the player's
vertical position. -/
theorem empty_stream_no_death (s : State) (inp : FrameInput)
    (hm : s.mode = GameMode.Playing)
    (h : s.frameObstacles inp = []) :
    (s.play inp).mode ≠ GameMode.End ∧
    (inp.key ≠ some Key.Escape → (s.play inp).mode = GameMode.Playing) := by
  unfold State.play
  dsimp only
  rw [h, hm]
  simp only [List.any_nil, Bool.false_eq_true, if_false]
  constructor
  · split
    · simp
    · simp
  · intro hk
    rw [if_neg hk]

/-- Witness for `empty_stream_no_death`: Playing, no obstacles, player at
y = 60 (far past the bottom boundary); after a 5 ms key-less frame (whose
spawn condition fails since `5 % 50 ≠ 0`) the mode is still Playing. -/
theorem empty_stream_no_death_witness :
    (⟨⟨5, 60, 0, 0⟩, 0, [], GameMode.Playing, 0⟩ : State).frameObstacles
      ⟨5, none, 1, 0⟩ = [] ∧
    ((⟨⟨5, 60, 0, 0⟩, 0, [], GameMode.Playing, 0⟩ : State).play
      ⟨5, none, 1, 0⟩).mode = GameMode.Playing :=
  ⟨by with_unfolding_all decide,
    (empty_stream_no_death _ _ rfl (by with_unfolding_all decide)).2
      (by with_unfolding_all decide)⟩

/-- Claim C3, counterexample.  The claim states that on the first frame in
which the player's horizontal position exceeds an obstacle's, the score
increments by exactly 1.  But the retirement loop adds 1 per qualifying
obstacle while removing only the head: `c3Inputs` reaches the state `ckC80`
— two obstacles at the same position 86 (spawned by the `doubleSpawn`
opening), player at x = 86, score 1 — and the next frame (the first on
which x = 87 exceeds 86, since x only grows by ticks of one) raises the
score from 1 to 3 while removing only one of the two obstacles. -/
theorem retire_score_counterexample :
    (runFrames (State.restart 20) c3Inputs).player.x = 86 ∧
    (runFrames (State.restart 20) c3Inputs).score = 1 ∧
    (runFrames (State.restart 20) c3Inputs).obstacles.map (fun o => o.x) = [86, 86] ∧
    ((runFrames (State.restart 20) c3Inputs).play iA).player.x = 87 ∧
    ((runFrames (State.restart 20) c3Inputs).play iA).score = 3 ∧
    ((runFrames (State.restart 20) c3Inputs).play iA).obstacles.map (fun o => o.x) =
      [86] := by
  rw [reach_ckC80]
  with_unfolding_all decide

/-- Claim C3, amended: in every Playing-mode frame, at most the head
obstacle is removed from the stream (FIFO order preserved); and on a frame
in which the player's position exceeds exactly the head obstacle's position
(all later obstacles still at or ahead of the player, as is the case when
positions are strictly increasing and the head has just been passed), the
score increments by exactly 1 and that head obstacle is removed.  When
several obstacles qualify at once — possible only with duplicated
positions — the score increments by more than 1 (see the
counterexample). -/
theorem retire_head_score (s : State) (inp : FrameInput) :
    ((s.play inp).obstacles = s.frameObstacles inp ∨
      (s.play inp).obstacles = (s.frameObstacles inp).drop 1) ∧
    (∀ o t, s.frameObstacles inp = o :: t →
      o.x < (s.framePlayer inp).x →
      (∀ b ∈ t, (s.framePlayer inp).x ≤ b.x) →
      (s.play inp).score = s.score + 1 ∧ (s.play inp).obstacles = t) := by
  constructor
  · unfold State.play
    dsimp only
    split
    · right; rfl
    · left; rfl
  · intro o t ho hox hrest
    unfold State.play
    dsimp only
    rw [ho]
    have h1 : decide ((s.framePlayer inp).x > o.x) = true := decide_eq_true hox
    have h2 : (t.countP fun b => decide ((s.framePlayer inp).x > b.x)) = 0 := by
      rw [List.countP_eq_zero]
      intro b hb
      simp only [decide_eq_true_eq]
      exact not_lt.mpr (hrest b hb)
    constructor
    · simp [List.countP_cons, h1, h2]
    · simp [List.any_cons, h1]

/-- Witness for `retire_head_score`: a Playing state whose player (x = 4)
has passed the head obstacle (x = 3) but not the second (x = 10); a 5 ms
frame (no tick, no spawn) adds exactly 1 to the score and removes the
head. -/
theorem retire_head_score_witness :
    (⟨⟨4, 0, 0, 0⟩, 0, [⟨3, 20, 40⟩, ⟨10, 20, 40⟩], GameMode.Playing, 5⟩ : State).frameObstacles
      ⟨5, none, 1, 0⟩ = ⟨3, 20, 40⟩ :: [⟨10, 20, 40⟩] ∧
    ((⟨⟨4, 0, 0, 0⟩, 0, [⟨3, 20, 40⟩, ⟨10, 20, 40⟩], GameMode.Playing, 5⟩ : State).play
      ⟨5, none, 1, 0⟩).score = 6 ∧
    ((⟨⟨4, 0, 0, 0⟩, 0, [⟨3, 20, 40⟩, ⟨10, 20, 40⟩], GameMode.Playing, 5⟩ : State).play
      ⟨5, none, 1, 0⟩).obstacles = [⟨10, 20, 40⟩] := by
  refine ⟨by with_unfolding_all decide, ?_, ?_⟩
  · exact ((retire_head_score _ _).2 ⟨3, 20, 40⟩ [⟨10, 20, 40⟩]
      (by with_unfolding_all decide) (by with_unfolding_all decide)
      (by with_unfolding_all decide)).1
  · exact ((retire_head_score _ _).2 ⟨3, 20, 40⟩ [⟨10, 20, 40⟩]
      (by with_unfolding_all decide) (by with_unfolding_all decide)
      (by with_unfolding_all decide)).2

/-- The invariant behind the obstacle-stream ordering: positions are
pairwise non-decreasing and every obstacle sits at most one screen width
ahead of the player. -/
def ObsInv (s : State) : Prop :=
  List.Pairwise (fun a b : Obstacle => a.x ≤ b.x) s.obstacles ∧
  ∀ o ∈ s.obstacles, o.x ≤ s.player.x + SCREEN_WIDTH

/-- A frame never moves the player backwards. -/
theorem framePlayer_x_ge (s : State) (inp : FrameInput) :
    s.player.x ≤ (s.framePlayer inp).x := by
  unfold State.framePlayer
  dsimp only
  have hfl : ∀ q : Player, (if inp.key = some Key.Space then q.flap else q).x = q.x := by
    intro q; split <;> rfl
  rw [hfl]
  split
  · show s.player.x ≤ s.player.x + 1
    omega
  · exact le_refl _

/-- One frame of `play` preserves `ObsInv`. -/
theorem obsInv_play (s : State) (inp : FrameInput) (h : ObsInv s) :
    ObsInv (s.play inp) := by
  obtain ⟨hpair, hbound⟩ := h
  have hpx := framePlayer_x_ge s inp
  have hpair1 : List.Pairwise (fun a b : Obstacle => a.x ≤ b.x)
      (s.frameObstacles inp) := by
    unfold State.frameObstacles
    split
    · rw [List.pairwise_append]
      refine ⟨hpair, List.pairwise_singleton _ _, ?_⟩
      intro a ha b hb
      rw [List.mem_singleton] at hb
      subst hb
      show a.x ≤ (s.framePlayer inp).x + SCREEN_WIDTH
      have := hbound a ha
      omega
    · exact hpair
  have hbound1 : ∀ o ∈ s.frameObstacles inp,
      o.x ≤ (s.framePlayer inp).x + SCREEN_WIDTH := by
    unfold State.frameObstacles
    split
    · intro o ho
      rcases List.mem_append.mp ho with h1 | h2
      · have := hbound o h1; omega
      · rw [List.mem_singleton] at h2
        subst h2
        exact le_refl _
    · intro o ho
      have := hbound o ho; omega
  constructor
  · show List.Pairwise _ (s.play inp).obstacles
    unfold State.play
    dsimp only
    split
    · exact List.Pairwise.sublist (List.drop_sublist _ _) hpair1
    · exact hpair1
  · intro o ho
    show o.x ≤ (s.play inp).player.x + SCREEN_WIDTH
    have ho' : o ∈ s.frameObstacles inp := by
      revert ho
      unfold State.play
      dsimp only
      split
      · exact fun ho => List.mem_of_mem_drop ho
      · exact id
    exact hbound1 o ho'

/-- Claim C8, counterexample.  The claim states the obstacle stream never
holds two obstacles in non-increasing horizontal order (positions strictly
increasing head to tail).  But two frames from a fresh session — a 50 ms
tick frame and a 0.5 ms no-tick frame, both passing the spawn rolls while
the player stands still between ticks — leave the stream holding obstacles
at positions 80, 86, 86: the last two are equal, not strictly
increasing. -/
theorem obstacles_strict_counterexample :
    (runFrames (State.restart 20) doubleSpawn).obstacles.map (fun o => o.x) =
      [80, 86, 86] ∧
    ¬ List.Pairwise (fun a b : Obstacle => a.x < b.x)
      (runFrames (State.restart 20) doubleSpawn).obstacles := by
  rw [runC0]
  with_unfolding_all decide

/-- Claim C8, amended: after any number of frames of the Playing-mode
handler starting from a fresh (restart) session, the obstacle positions are
non-decreasing from head to tail — spawns append at positions at least as
large as every position present, retirement removes only the head.  Strict
increase does not hold: two obstacles can be spawned at the same position
(see the counterexample). -/
theorem obstacles_ordered (g : Int) (l : List FrameInput) :
    List.Pairwise (fun a b : Obstacle => a.x ≤ b.x)
      ((runFrames (State.restart g) l).obstacles) := by
  have hinv : ∀ (l : List FrameInput) (s : State), ObsInv s → ObsInv (runFrames s l) := by
    intro l
    induction l with
    | nil => exact fun s h => h
    | cons i l ih => exact fun s h => ih _ (obsInv_play s i h)
  have h0 : ObsInv (State.restart g) := by
    constructor
    · exact List.pairwise_singleton _ _
    · intro o ho
      rw [show (State.restart g).obstacles = [Obstacle.new SCREEN_WIDTH g] from rfl,
        List.mem_singleton] at ho
      subst ho
      show SCREEN_WIDTH ≤ (State.restart g).player.x + SCREEN_WIDTH
      norm_num [SCREEN_WIDTH, State.restart, Player.new]
  exact (hinv l _ h0).1

end FlappyDragon
